import Mathlib

/-!
# Skyrim Sentinel — hybrid verification resolution engine

A shallow embedding of the client-side verification core of the
`skyrim-sentinel` repository (`sentinel-client/api_client.py` and
`sentinel-client/local_cache.py`), together with theorems checking the
specification's claims against it.

Modelling conventions:

* The SQLite table `hashes` (primary key `sha256`) is a list of rows
  `String × CachedPlugin`; the primary-key constraint appears as the
  hypothesis that the row keys are `Nodup`.
* A Python `dict` is an insertion-ordered association list
  `List (String × α)`; `dictInsert` overwrites in place on an existing
  key and appends a fresh one, exactly as CPython does.
* The HTTP layer behind `requests` is a `Transport` oracle mapping the
  posted hash list to either a network-level failure
  (`requests.RequestException`) or a status code plus a parsed JSON body
  whose fields are all optional, mirroring `data.get(...)` access.
* Exceptions become the error component of `Except`: `ValueError` on an
  empty hash list is `ScanError.validationError`, `SentinelAPIError` is
  `ScanError.apiError`, and a `KeyError` raised by a missing required
  field of a 200 body is `ScanError.keyError`.
* `HybridVerifier.verify` additionally returns the updated
  `_last_source` and a trace of which collaborators were invoked, so
  that "the cache is never consulted" is expressible.
-/

namespace SkyrimSentinel

/-- `local_cache.CachedPlugin`: cached plugin info from the local database. -/
structure CachedPlugin where
  name : String
  nexus_id : Int
  filename : Option String
  status : String
deriving DecidableEq, Repr

/-- `api_client.PluginInfo`: plugin metadata from verification. -/
structure PluginInfo where
  name : String
  nexus_id : Int
  filename : Option String := none
  author : Option String := none
deriving DecidableEq, Repr

/-- The `source` literal type: `"remote" | "cached" | "mixed"`. -/
inductive Source where
  | remote
  | cached
  | mixed
deriving DecidableEq, Repr

/-- `api_client.ScanResult`: individual hash verification result. -/
structure ScanResult where
  hash : String
  status : String
  plugin : Option PluginInfo := none
  source : Source := Source.remote
deriving DecidableEq, Repr

/-- `api_client.ScanResponse`: the batch response envelope. -/
structure ScanResponse where
  scanned : Nat
  verified : Nat
  unknown : Nat
  revoked : Nat
  results : List ScanResult
  source : Source := Source.remote
deriving DecidableEq, Repr

/-- The rows of the SQLite table `hashes` (`sha256 TEXT PRIMARY KEY, ...`),
in rowid order. -/
structure Store where
  rows : List (String × CachedPlugin)
deriving DecidableEq, Repr

/-- Python `str.lower()` (the inputs are ASCII hex digests, so ASCII
lowering is the relevant behavior): lower every character. -/
def strLower (s : String) : String :=
  ⟨s.data.map Char.toLower⟩

/-- The keys (`sha256` column) of the store. -/
def Store.keys (s : Store) : List String :=
  s.rows.map Prod.fst

/-- `SELECT ... FROM hashes WHERE sha256 = k`, first row if any.  With the
primary-key constraint there is at most one matching row. -/
def Store.lookupRow (s : Store) (k : String) : Option CachedPlugin :=
  (s.rows.find? (fun r => r.1 = k)).map Prod.snd

/-- `LocalCache.get`: point lookup, normalizing the input to lowercase. -/
def Store.get (s : Store) (sha256 : String) : Option CachedPlugin :=
  s.lookupRow (strLower sha256)

/-- `INSERT OR REPLACE INTO hashes ...`: SQLite deletes any row with the
same primary key and inserts the new row (at the end, with a fresh rowid). -/
def Store.upsert (s : Store) (key : String) (v : CachedPlugin) : Store :=
  ⟨s.rows.filter (fun r => r.1 ≠ key) ++ [(key, v)]⟩

/-- A freshly initialized database (`_init_db` on a new file): no rows. -/
def Store.empty : Store :=
  ⟨[]⟩

/-- `LocalCache.count`: `SELECT COUNT(*) FROM hashes`. -/
def Store.count (s : Store) : Nat :=
  s.rows.length

/-- `LocalCache.clear`: `DELETE FROM hashes`. -/
def Store.clear (_ : Store) : Store :=
  ⟨[]⟩

/-- One entry of `golden_set.json`'s `files` lists; every field is read
with `.get`, so all are optional. -/
structure FileEntry where
  filename : Option String := none
  sha256 : Option String := none
  status : Option String := none
deriving DecidableEq, Repr

/-- One entry of `golden_set.json`'s `plugins` list.  `name` and `nexusId`
are accessed with `plugin["name"]` / `plugin["nexusId"]`, hence required. -/
structure GoldenPlugin where
  name : String
  nexusId : Int
  files : List FileEntry
deriving DecidableEq, Repr

/-- The parsed `golden_set.json` dataset. -/
structure GoldenSet where
  plugins : List GoldenPlugin
deriving DecidableEq, Repr

/-- The body of `load_from_golden_set`'s inner loop: skip a file entry
whose `sha256` is missing or empty (Python truthiness of `if sha256:`),
otherwise upsert the lowercased hash and bump the count. -/
def upsertFile (p : GoldenPlugin) (acc : Store × Nat) (e : FileEntry) : Store × Nat :=
  match e.sha256 with
  | some h =>
    if h = "" then acc
    else (acc.1.upsert (strLower h) ⟨p.name, p.nexusId, e.filename, e.status.getD "verified"⟩,
          acc.2 + 1)
  | none => acc

/-- `LocalCache.load_from_golden_set`: iterate plugins, then their files,
upserting each entry that has a hash; returns the new store and the count
of upserted rows. -/
def Store.load_from_golden_set (s : Store) (ds : GoldenSet) : Store × Nat :=
  ds.plugins.foldl (fun acc p => p.files.foldl (upsertFile p) acc) (s, 0)

/-- CPython `dict` assignment `d[k] = v`: overwrite in place when the key
is present, append otherwise. -/
def dictInsert {α : Type} : List (String × α) → String → α → List (String × α)
  | [], k, v => [(k, v)]
  | (k', v') :: rest, k, v =>
    if k' = k then (k', v) :: rest else (k', v') :: dictInsert rest k v

/-- CPython `dict` lookup `d[k]` / `d.get(k)`. -/
def dictLookup {α : Type} : List (String × α) → String → Option α
  | [], _ => none
  | (k', v) :: rest, k => if k' = k then some v else dictLookup rest k

/-- Fuel-indexed worker for `chunksOf`; the fuel only forces structural
termination and never runs out when it starts at the list's length. -/
def chunksOfFuel {α : Type} (n : Nat) : Nat → List α → List (List α)
  | _, [] => []
  | 0, _ :: _ => []
  | fuel + 1, x :: xs => (x :: xs.take (n - 1)) :: chunksOfFuel n fuel (xs.drop (n - 1))

/-- `normalized[i : i + chunk_size]` slices of the loop
`for i in range(0, len(normalized), chunk_size)`. -/
def chunksOf {α : Type} (n : Nat) (l : List α) : List (List α) :=
  chunksOfFuel n l.length l

/-- `SELECT sha256, ... FROM hashes WHERE sha256 IN (chunk)`: the rows of
the table whose key occurs in the chunk, in table order. -/
def selectIn (s : Store) (chunk : List String) : List (String × CachedPlugin) :=
  s.rows.filter (fun r => chunk.contains r.1)

/-- `LocalCache.get_batch`, with the chunk size as a parameter (the code
fixes it to 500): lowercase everything, fill a dict from the chunked
`IN (...)` queries, then add `None` for every normalized hash that was
not found. -/
def Store.get_batch_chunked (chunk_size : Nat) (s : Store) (hashes : List String) :
    List (String × Option CachedPlugin) :=
  let normalized := hashes.map strLower
  let found := (chunksOf chunk_size normalized).foldl
    (fun d chunk => (selectIn s chunk).foldl (fun d2 r => dictInsert d2 r.1 (some r.2)) d) []
  normalized.foldl
    (fun d h => if (dictLookup d h).isSome then d else d ++ [(h, none)]) found

/-- `LocalCache.get_batch` as shipped: chunk size 500. -/
def Store.get_batch (s : Store) (hashes : List String) : List (String × Option CachedPlugin) :=
  Store.get_batch_chunked 500 s hashes

/-- The JSON `plugin` object of a scan result; all fields optional since
the code indexes into a parsed dict. -/
structure JsonPlugin where
  name : Option String := none
  nexusId : Option Int := none
  filename : Option String := none
  author : Option String := none
deriving DecidableEq, Repr

/-- One item of the JSON `results` array. -/
structure JsonResult where
  hash : Option String := none
  status : Option String := none
  plugin : Option JsonPlugin := none
deriving DecidableEq, Repr

/-- The parsed JSON body of a `/api/v1/scan` response (also carries the
`error`/`code` fields of a non-200 body). -/
structure JsonBody where
  error : Option String := none
  code : Option String := none
  scanned : Option Nat := none
  verified : Option Nat := none
  unknown : Option Nat := none
  revoked : Option Nat := none
  results : Option (List JsonResult) := none
deriving DecidableEq, Repr

/-- What the HTTP POST to `/api/v1/scan` yields: either a
`requests.RequestException` or a status code with a parsed body. -/
inductive HttpOutcome where
  | response (status : Nat) (body : JsonBody)
  | requestException
deriving DecidableEq, Repr

/-- The network as an oracle from the posted (raw, un-normalized) hash
list to an HTTP outcome. -/
def Transport : Type :=
  List String → HttpOutcome

/-- The exceptions `SentinelClient.scan` can raise: `ValueError` on empty
input, `requests.RequestException`, `SentinelAPIError`, and `KeyError`
from indexing a missing required field of a 200 body. -/
inductive ScanError where
  | validationError
  | requestException
  | apiError (message : String) (code : Option String)
  | keyError
deriving DecidableEq, Repr

/-- Parsing `item.get("plugin")`: a missing/falsy plugin is `none`; a
present object must have `name` and `nexusId` (`item["plugin"]["name"]`,
`item["plugin"]["nexusId"]`) or a `KeyError` is raised. -/
def parsePlugin (item : JsonResult) : Except ScanError (Option PluginInfo) :=
  match item.plugin with
  | none => Except.ok none
  | some p =>
    match p.name, p.nexusId with
    | some n, some id => Except.ok (some ⟨n, id, p.filename, p.author⟩)
    | _, _ => Except.error ScanError.keyError

/-- Parsing one item of `data["results"]`: `item["hash"]` and
`item["status"]` are required. -/
def parseResult (item : JsonResult) : Except ScanError ScanResult := do
  let plugin ← parsePlugin item
  match item.hash, item.status with
  | some h, some st => Except.ok ⟨h, st, plugin, Source.remote⟩
  | _, _ => Except.error ScanError.keyError

/-- `SentinelClient.scan`: reject empty input, POST the raw hashes, turn a
non-200 status into `SentinelAPIError`, otherwise parse the results and
build the envelope from `data.get(..., 0)` fields. -/
def SentinelClient.scan (transport : Transport) (hashes : List String) :
    Except ScanError ScanResponse :=
  if hashes.isEmpty then Except.error ScanError.validationError
  else
    match transport hashes with
    | HttpOutcome.requestException => Except.error ScanError.requestException
    | HttpOutcome.response status body =>
      if status ≠ 200 then
        Except.error (ScanError.apiError (body.error.getD "Unknown error") body.code)
      else do
        let results ← (body.results.getD []).mapM parseResult
        Except.ok ⟨body.scanned.getD 0, body.verified.getD 0, body.unknown.getD 0,
                   body.revoked.getD 0, results, Source.remote⟩

/-- The classification of one cache answer in `_verify_from_cache`'s loop:
absent → `unknown` with no plugin; `revoked` → `revoked` with plugin;
anything else → `verified` with plugin. -/
def classifyCached (hash_str : String) (cached : Option CachedPlugin) : ScanResult :=
  match cached with
  | none => ⟨hash_str, "unknown", none, Source.cached⟩
  | some c =>
    if c.status = "revoked" then
      ⟨hash_str, "revoked", some ⟨c.name, c.nexus_id, c.filename, none⟩, Source.cached⟩
    else
      ⟨hash_str, "verified", some ⟨c.name, c.nexus_id, c.filename, none⟩, Source.cached⟩

/-- `HybridVerifier._verify_from_cache`: classify every item of the
`get_batch` dict; each loop branch increments exactly the counter named
by the status it assigns, so the counters are the status counts of the
produced results; `scanned` is the length of the raw input list. -/
def HybridVerifier.verify_from_cache (cache : Store) (hashes : List String) : ScanResponse :=
  let cache_results := cache.get_batch hashes
  let results := cache_results.map (fun p => classifyCached p.1 p.2)
  ⟨hashes.length,
   (results.filter (fun r => r.status = "verified")).length,
   (results.filter (fun r => r.status = "unknown")).length,
   (results.filter (fun r => r.status = "revoked")).length,
   results, Source.cached⟩

/-- Which collaborators a `verify` call invoked. -/
inductive CallEvent where
  | remoteScan
  | cacheGetBatch
deriving DecidableEq, Repr

deriving instance DecidableEq for Except

/-- The observable outcome of one `HybridVerifier.verify` call: the
returned response or propagated exception, the `_last_source` field after
the call, and the trace of collaborator invocations. -/
structure VerifyOut where
  result : Except ScanError ScanResponse
  last_source : Source
  calls : List CallEvent
deriving DecidableEq, Repr

/-- `HybridVerifier.verify`: reject empty input before touching anything;
try `scan`; on success return its response unchanged with
`_last_source = "remote"`; on `RequestException` or `SentinelAPIError`
fall back to the cache with `_last_source = "cached"`; any other
exception propagates with `_last_source` untouched. -/
def HybridVerifier.verify (transport : Transport) (cache : Store) (last : Source)
    (hashes : List String) : VerifyOut :=
  if hashes.isEmpty then ⟨Except.error ScanError.validationError, last, []⟩
  else
    match SentinelClient.scan transport hashes with
    | Except.ok resp => ⟨Except.ok resp, Source.remote, [CallEvent.remoteScan]⟩
    | Except.error ScanError.requestException =>
      ⟨Except.ok (HybridVerifier.verify_from_cache cache hashes), Source.cached,
       [CallEvent.remoteScan, CallEvent.cacheGetBatch]⟩
    | Except.error (ScanError.apiError _ _) =>
      ⟨Except.ok (HybridVerifier.verify_from_cache cache hashes), Source.cached,
       [CallEvent.remoteScan, CallEvent.cacheGetBatch]⟩
    | Except.error e => ⟨Except.error e, last, [CallEvent.remoteScan]⟩

/-- A transport that always fails at the network level
(`TransportError` stub of the spec's test list). -/
def failingTransport : Transport :=
  fun _ => HttpOutcome.requestException

theorem dictLookup_append {α : Type} (d1 d2 : List (String × α)) (k : String) :
    dictLookup (d1 ++ d2) k =
      match dictLookup d1 k with
      | some v => some v
      | none => dictLookup d2 k := by
  induction d1 with
  | nil => simp [dictLookup]
  | cons p rest ih =>
    obtain ⟨a, b⟩ := p
    by_cases h : a = k <;> simp [dictLookup, h, ih]

theorem dictLookup_dictInsert {α : Type} (d : List (String × α)) (k k' : String) (v : α) :
    dictLookup (dictInsert d k v) k' = if k = k' then some v else dictLookup d k' := by
  induction d with
  | nil => simp [dictInsert, dictLookup]
  | cons p rest ih =>
    obtain ⟨a, b⟩ := p
    by_cases hak : a = k
    · subst hak
      by_cases hk' : a = k' <;> simp [dictInsert, dictLookup, hk']
    · by_cases hk' : a = k'
      · subst hk'
        simp [dictInsert, dictLookup, hak, (Ne.symm hak : ¬ k = a)]
      · simp [dictInsert, dictLookup, hak, hk', ih]

theorem dictLookup_isSome_iff {α : Type} (d : List (String × α)) (k : String) :
    (dictLookup d k).isSome ↔ k ∈ d.map Prod.fst := by
  induction d with
  | nil => simp [dictLookup]
  | cons p rest ih =>
    obtain ⟨a, b⟩ := p
    by_cases h : a = k
    · simp [dictLookup, h]
    · have h2 : ¬ k = a := fun he => h he.symm
      simp [dictLookup, h, h2, ih]

theorem keys_dictInsert {α : Type} (d : List (String × α)) (k : String) (v : α) :
    (dictInsert d k v).map Prod.fst =
      if k ∈ d.map Prod.fst then d.map Prod.fst else d.map Prod.fst ++ [k] := by
  induction d with
  | nil => simp [dictInsert]
  | cons p rest ih =>
    obtain ⟨a, b⟩ := p
    by_cases h : a = k
    · simp [dictInsert, h]
    · have : ¬ k = a := fun he => h he.symm
      simp only [dictInsert, if_neg h, List.map_cons, List.mem_cons, this, false_or]
      rw [ih]
      by_cases hm : k ∈ rest.map Prod.fst <;> simp [hm]

theorem nodup_keys_dictInsert {α : Type} (d : List (String × α)) (k : String) (v : α)
    (h : (d.map Prod.fst).Nodup) : ((dictInsert d k v).map Prod.fst).Nodup := by
  rw [keys_dictInsert]
  by_cases hm : k ∈ d.map Prod.fst
  · simpa [hm]
  · simp [hm, List.nodup_append, h]

theorem chunksOfFuel_flatten {α : Type} (n : Nat) :
    ∀ (fuel : Nat) (l : List α), l.length ≤ fuel → (chunksOfFuel n fuel l).flatten = l := by
  intro fuel
  induction fuel with
  | zero =>
    intro l hl
    cases l with
    | nil => simp [chunksOfFuel]
    | cons x xs => simp at hl
  | succ f ih =>
    intro l hl
    cases l with
    | nil => simp [chunksOfFuel]
    | cons x xs =>
      simp only [chunksOfFuel, List.flatten_cons, List.cons_append]
      rw [ih (xs.drop (n - 1)) (by simp at hl ⊢; omega), List.take_append_drop]

theorem chunksOf_flatten {α : Type} (n : Nat) (l : List α) : (chunksOf n l).flatten = l :=
  chunksOfFuel_flatten n l.length l le_rfl

theorem find?_key_eq_of_nodup (l : List (String × CachedPlugin)) (r : String × CachedPlugin)
    (hnd : (l.map Prod.fst).Nodup) (hr : r ∈ l) :
    l.find? (fun x => x.1 = r.1) = some r := by
  induction l with
  | nil => cases hr
  | cons a rest ih =>
    rcases List.mem_cons.mp hr with h | h
    · subst h; simp [List.find?]
    · have hne : a.1 ≠ r.1 := by
        intro he
        have : r.1 ∈ rest.map Prod.fst := List.mem_map_of_mem Prod.fst h
        exact (List.nodup_cons.mp hnd).1 (he ▸ this)
      rw [List.find?_cons_of_neg _ (by simpa using hne)]
      exact ih (List.nodup_cons.mp hnd).2 h


theorem dictLookup_foldl_insert (rows : List (String × CachedPlugin))
    (d : List (String × Option CachedPlugin)) (k : String) (w : CachedPlugin)
    (hw : ∀ r ∈ rows, r.1 = k → r.2 = w) :
    dictLookup (rows.foldl (fun d2 r => dictInsert d2 r.1 (some r.2)) d) k =
      if rows.any (fun r => r.1 = k) then some (some w) else dictLookup d k := by
  induction rows generalizing d with
  | nil => simp
  | cons r rest ih =>
    simp only [List.foldl_cons, List.any_cons]
    rw [ih _ (fun x hx hk => hw x (List.mem_cons_of_mem _ hx) hk)]
    by_cases hk : r.1 = k
    · have hv : r.2 = w := hw r (List.mem_cons_self _ _) hk
      by_cases ha : rest.any (fun x => x.1 = k) <;>
        simp [hk, ha, dictLookup_dictInsert, hv]
    · by_cases ha : rest.any (fun x => x.1 = k) <;>
        simp [hk, ha, dictLookup_dictInsert]

theorem dictLookup_foldl_chunks (s : Store) (chunks : List (List String))
    (d : List (String × Option CachedPlugin)) (k : String) (w : CachedPlugin)
    (hw : ∀ r ∈ s.rows, r.1 = k → r.2 = w) :
    dictLookup (chunks.foldl
        (fun d1 ch => (selectIn s ch).foldl (fun d2 r => dictInsert d2 r.1 (some r.2)) d1) d) k =
      if chunks.any (fun ch => (selectIn s ch).any (fun r => r.1 = k)) then some (some w)
      else dictLookup d k := by
  induction chunks generalizing d with
  | nil => simp
  | cons ch rest ih =>
    simp only [List.foldl_cons, List.any_cons]
    rw [ih]
    have hsel : ∀ r ∈ selectIn s ch, r.1 = k → r.2 = w := by
      intro r hr hk
      exact hw r (List.mem_of_mem_filter hr) hk
    rw [dictLookup_foldl_insert _ _ _ w hsel]
    by_cases h1 : (selectIn s ch).any (fun r => r.1 = k) <;>
      by_cases h2 : rest.any (fun c => (selectIn s c).any (fun r => r.1 = k)) <;>
        simp [h1, h2]

theorem any_selectIn_iff (s : Store) (ch : List String) (k : String) :
    ((selectIn s ch).any (fun r => r.1 = k) = true) ↔
      ((∃ r ∈ s.rows, r.1 = k) ∧ k ∈ ch) := by
  simp only [selectIn, List.any_eq_true, List.mem_filter]
  constructor
  · rintro ⟨r, ⟨hr, hc⟩, hk⟩
    have hk' : r.1 = k := by simpa using hk
    refine ⟨⟨r, hr, hk'⟩, ?_⟩
    rw [← hk']
    simpa using hc
  · rintro ⟨⟨r, hr, hk⟩, hc⟩
    exact ⟨r, ⟨hr, by simp [hk, hc]⟩, by simpa using hk⟩

theorem mem_of_mem_chunksOf {α : Type} (n : Nat) (l : List α) (k : α) :
    (∃ ch ∈ chunksOf n l, k ∈ ch) ↔ k ∈ l := by
  rw [← chunksOf_flatten n l, List.mem_flatten]
  simp [chunksOf_flatten]

theorem dictLookup_fill (norm : List String) (d : List (String × Option CachedPlugin))
    (k : String) :
    dictLookup (norm.foldl
        (fun d1 h => if (dictLookup d1 h).isSome then d1 else d1 ++ [(h, none)]) d) k =
      match dictLookup d k with
      | some v => some v
      | none => if k ∈ norm then some none else none := by
  induction norm generalizing d with
  | nil =>
    simp only [List.foldl_nil]
    cases hk : dictLookup d k <;> simp
  | cons h rest ih =>
    simp only [List.foldl_cons]
    by_cases hd : (dictLookup d h).isSome
    · rw [if_pos hd, ih]
      cases hk : dictLookup d k with
      | some v => simp
      | none =>
        have hne : k ≠ h := by
          intro he
          rw [← he, hk] at hd
          simp at hd
        simp [hk, List.mem_cons, hne]
    · rw [if_neg hd, ih, dictLookup_append]
      cases hk : dictLookup d k with
      | some v => simp [hk]
      | none =>
        by_cases hkh : h = k
        · subst hkh
          simp [hk, dictLookup]
        · have h2 : ¬ k = h := fun he => hkh he.symm
          simp [hk, dictLookup, hkh, List.mem_cons, h2]

theorem lookupRow_of_mem (s : Store) (hnd : s.keys.Nodup) (r : String × CachedPlugin)
    (hr : r ∈ s.rows) : s.lookupRow r.1 = some r.2 := by
  unfold Store.lookupRow
  rw [find?_key_eq_of_nodup s.rows r hnd hr]
  rfl

theorem get_batch_chunked_lookup (c : Nat) (s : Store) (hashes : List String) (k : String)
    (hnd : s.keys.Nodup) :
    dictLookup (Store.get_batch_chunked c s hashes) k =
      if k ∈ hashes.map strLower then some (s.lookupRow k) else none := by
  unfold Store.get_batch_chunked
  simp only []
  rw [dictLookup_fill]
  by_cases hrow : ∃ r ∈ s.rows, r.1 = k
  · obtain ⟨r0, hr0, hk0⟩ := hrow
    have hlook : s.lookupRow k = some r0.2 := hk0 ▸ lookupRow_of_mem s hnd r0 hr0
    have hw : ∀ r ∈ s.rows, r.1 = k → r.2 = r0.2 := by
      intro r hr hk
      have := hk ▸ lookupRow_of_mem s hnd r hr
      rw [hlook] at this
      exact (Option.some_inj.mp this).symm
    rw [dictLookup_foldl_chunks s _ _ _ r0.2 hw]
    by_cases hmem : k ∈ hashes.map strLower
    · have hany : (chunksOf c (hashes.map strLower)).any
          (fun ch => (selectIn s ch).any (fun r => r.1 = k)) = true := by
        rw [List.any_eq_true]
        obtain ⟨ch, hch, hkch⟩ := (mem_of_mem_chunksOf c (hashes.map strLower) k).mpr hmem
        exact ⟨ch, hch, (any_selectIn_iff s ch k).mpr ⟨⟨r0, hr0, hk0⟩, hkch⟩⟩
      simp [hany, hmem, hlook]
    · have hany : ¬ (chunksOf c (hashes.map strLower)).any
          (fun ch => (selectIn s ch).any (fun r => r.1 = k)) = true := by
        rw [List.any_eq_true]
        rintro ⟨ch, hch, hsel⟩
        obtain ⟨-, hkch⟩ := (any_selectIn_iff s ch k).mp hsel
        exact hmem ((mem_of_mem_chunksOf c (hashes.map strLower) k).mp ⟨ch, hch, hkch⟩)
      simp [hany, hmem, dictLookup]
  · have hw : ∀ r ∈ s.rows, r.1 = k → r.2 = ⟨"", 0, none, ""⟩ := by
      intro r hr hk
      exact absurd ⟨r, hr, hk⟩ hrow
    have hlook : s.lookupRow k = none := by
      unfold Store.lookupRow
      rw [List.find?_eq_none.mpr]
      · rfl
      · intro r hr
        simpa using fun hk => hrow ⟨r, hr, hk⟩
    rw [dictLookup_foldl_chunks s _ _ _ _ hw]
    have hany : ¬ (chunksOf c (hashes.map strLower)).any
        (fun ch => (selectIn s ch).any (fun r => r.1 = k)) = true := by
      rw [List.any_eq_true]
      rintro ⟨ch, hch, hsel⟩
      exact hrow ((any_selectIn_iff s ch k).mp hsel).1
    simp only [hany, if_false]
    by_cases hmem : k ∈ hashes.map strLower <;> simp [hmem, hlook, dictLookup]
theorem nodup_keys_foldl_insert (rows : List (String × CachedPlugin))
    (d : List (String × Option CachedPlugin)) (h : (d.map Prod.fst).Nodup) :
    ((rows.foldl (fun d2 r => dictInsert d2 r.1 (some r.2)) d).map Prod.fst).Nodup := by
  induction rows generalizing d with
  | nil => simpa
  | cons r rest ih => exact ih _ (nodup_keys_dictInsert d r.1 (some r.2) h)

theorem nodup_keys_foldl_chunks (s : Store) (chunks : List (List String))
    (d : List (String × Option CachedPlugin)) (h : (d.map Prod.fst).Nodup) :
    ((chunks.foldl
        (fun d1 ch => (selectIn s ch).foldl (fun d2 r => dictInsert d2 r.1 (some r.2)) d1) d).map
        Prod.fst).Nodup := by
  induction chunks generalizing d with
  | nil => simpa
  | cons ch rest ih => exact ih _ (nodup_keys_foldl_insert _ d h)

theorem nodup_keys_fill (norm : List String) (d : List (String × Option CachedPlugin))
    (h : (d.map Prod.fst).Nodup) :
    ((norm.foldl
        (fun d1 x => if (dictLookup d1 x).isSome then d1 else d1 ++ [(x, none)]) d).map
        Prod.fst).Nodup := by
  induction norm generalizing d with
  | nil => simpa
  | cons x rest ih =>
    simp only [List.foldl_cons]
    by_cases hd : (dictLookup d x).isSome
    · rw [if_pos hd]
      exact ih d h
    · rw [if_neg hd]
      refine ih _ ?_
      have hx : x ∉ d.map Prod.fst := fun hm => hd ((dictLookup_isSome_iff d x).mpr hm)
      simp [List.nodup_append, h, hx]

theorem nodup_keys_get_batch_chunked (c : Nat) (s : Store) (hashes : List String) :
    ((Store.get_batch_chunked c s hashes).map Prod.fst).Nodup := by
  unfold Store.get_batch_chunked
  exact nodup_keys_fill _ _ (nodup_keys_foldl_chunks s _ [] (by simp))

theorem mem_keys_get_batch_chunked (c : Nat) (s : Store) (hashes : List String) (k : String)
    (hnd : s.keys.Nodup) :
    k ∈ (Store.get_batch_chunked c s hashes).map Prod.fst ↔ k ∈ hashes.map strLower := by
  rw [← dictLookup_isSome_iff, get_batch_chunked_lookup c s hashes k hnd]
  by_cases hm : k ∈ hashes.map strLower <;> simp [hm]

theorem length_get_batch_chunked (c : Nat) (s : Store) (hashes : List String)
    (hnd : s.keys.Nodup) :
    (Store.get_batch_chunked c s hashes).length = (hashes.map strLower).dedup.length := by
  have h1 : (Store.get_batch_chunked c s hashes).length =
      ((Store.get_batch_chunked c s hashes).map Prod.fst).length := (List.length_map _ _).symm
  have hkeys := nodup_keys_get_batch_chunked c s hashes
  have hset : ((Store.get_batch_chunked c s hashes).map Prod.fst).toFinset =
      (hashes.map strLower).toFinset := by
    ext k
    simp only [List.mem_toFinset]
    exact mem_keys_get_batch_chunked c s hashes k hnd
  rw [h1, ← List.toFinset_card_of_nodup hkeys, hset, List.card_toFinset]

theorem counts_classify (l : List (String × Option CachedPlugin)) :
    ((l.map (fun p => classifyCached p.1 p.2)).filter (fun r => r.status = "verified")).length +
      ((l.map (fun p => classifyCached p.1 p.2)).filter (fun r => r.status = "unknown")).length +
      ((l.map (fun p => classifyCached p.1 p.2)).filter (fun r => r.status = "revoked")).length =
      l.length := by
  induction l with
  | nil => simp
  | cons p rest ih =>
    obtain ⟨h, c⟩ := p
    cases c with
    | none =>
      simp only [List.map_cons, List.filter_cons, show classifyCached h none =
        ⟨h, "unknown", none, Source.cached⟩ from rfl]
      simp
      omega
    | some cp =>
      by_cases hs : cp.status = "revoked"
      · simp only [List.map_cons, List.filter_cons, show classifyCached h (some cp) =
          ⟨h, "revoked", some ⟨cp.name, cp.nexus_id, cp.filename, none⟩, Source.cached⟩ by
            simp [classifyCached, hs]]
        simp
        omega
      · simp only [List.map_cons, List.filter_cons, show classifyCached h (some cp) =
          ⟨h, "verified", some ⟨cp.name, cp.nexus_id, cp.filename, none⟩, Source.cached⟩ by
            simp [classifyCached, hs]]
        simp
        omega

theorem mem_of_dictLookup_eq_some {α : Type} (d : List (String × α)) (k : String) (v : α)
    (h : dictLookup d k = some v) : (k, v) ∈ d := by
  induction d with
  | nil => simp [dictLookup] at h
  | cons p rest ih =>
    obtain ⟨a, b⟩ := p
    by_cases ha : a = k
    · subst ha
      simp [dictLookup] at h
      simp [h]
    · simp [dictLookup, ha] at h
      exact List.mem_cons_of_mem _ (ih h)

theorem scan_ok_source (transport : Transport) (hashes : List String) (resp : ScanResponse)
    (h : SentinelClient.scan transport hashes = Except.ok resp) : resp.source = Source.remote := by
  unfold SentinelClient.scan at h
  by_cases he : hashes.isEmpty = true
  · rw [if_pos he] at h
    exact Except.noConfusion h
  · rw [if_neg he] at h
    cases ht : transport hashes with
    | requestException =>
      rw [ht] at h
      exact Except.noConfusion h
    | response status body =>
      rw [ht] at h
      dsimp only [] at h
      by_cases hst : status ≠ 200
      · rw [if_pos hst] at h
        exact Except.noConfusion h
      · rw [if_neg hst] at h
        cases hm : (body.results.getD []).mapM parseResult with
        | error e =>
          rw [hm] at h
          exact Except.noConfusion h
        | ok rs =>
          rw [hm] at h
          have h2 : Except.ok (⟨body.scanned.getD 0, body.verified.getD 0, body.unknown.getD 0,
              body.revoked.getD 0, rs, Source.remote⟩ : ScanResponse) = Except.ok resp := h
          cases h2
          rfl

theorem scan_ok_nonempty (transport : Transport) (hashes : List String) (resp : ScanResponse)
    (h : SentinelClient.scan transport hashes = Except.ok resp) : hashes.isEmpty ≠ true := by
  intro he
  unfold SentinelClient.scan at h
  rw [if_pos he] at h
  exact Except.noConfusion h

theorem verify_from_cache_counts (cache : Store) (hashes : List String) (r : ScanResponse)
    (hr : HybridVerifier.verify_from_cache cache hashes = r) (hnd : cache.keys.Nodup) :
    r.verified + r.unknown + r.revoked = (hashes.map strLower).dedup.length ∧
      r.scanned = hashes.length := by
  rw [← hr]
  constructor
  · unfold HybridVerifier.verify_from_cache
    simp only []
    rw [counts_classify]
    exact length_get_batch_chunked 500 cache hashes hnd
  · rfl

/-- C1 (amended): every `BatchResult` that `verify` answers from the cache
fallback (`source = cached`) has `verified + unknown + revoked` equal to the
number of distinct lowercase-normalized input hashes, and `scanned` equal to
the raw input length; the two agree exactly when the normalized input has no
duplicates. -/
theorem verify_cached_counts (transport : Transport) (cache : Store) (ls : Source)
    (hashes : List String) (r : ScanResponse) (hnd : cache.keys.Nodup)
    (hres : (HybridVerifier.verify transport cache ls hashes).result = Except.ok r)
    (hsrc : r.source = Source.cached) :
    r.verified + r.unknown + r.revoked = (hashes.map strLower).dedup.length ∧
      r.scanned = hashes.length := by
  unfold HybridVerifier.verify at hres
  by_cases he : hashes.isEmpty = true
  · rw [if_pos he] at hres
    exact Except.noConfusion hres
  · rw [if_neg he] at hres
    cases hscan : SentinelClient.scan transport hashes with
    | ok resp =>
      rw [hscan] at hres
      simp only [Except.ok.injEq] at hres
      rw [← hres] at hsrc
      rw [scan_ok_source transport hashes resp hscan] at hsrc
      exact Source.noConfusion hsrc
    | error e =>
      rw [hscan] at hres
      cases e with
      | requestException =>
        dsimp only [] at hres
        exact verify_from_cache_counts cache hashes r (by simpa using hres) hnd
      | apiError m c =>
        dsimp only [] at hres
        exact verify_from_cache_counts cache hashes r (by simpa using hres) hnd
      | validationError =>
        dsimp only [] at hres
        exact Except.noConfusion hres
      | keyError =>
        dsimp only [] at hres
        exact Except.noConfusion hres

/-- C1 counterexample: with the remote failing and an empty cache,
`verify(["a", "a"])` returns `scanned = 2` but only one entry, so
`verified + unknown + revoked = 1 ≠ 2 = scanned`. -/
theorem verify_counts_counterexample :
    (HybridVerifier.verify failingTransport Store.empty Source.cached ["a", "a"]).result.map
        (fun r => (r.verified + r.unknown + r.revoked, r.scanned)) = Except.ok (1, 2) ∧
      (1 : Nat) ≠ 2 := by
  exact ⟨by decide, by decide⟩

/-- C1 witness: the amended count identity instantiated at the failing
remote, the empty cache and the input `["a"]`. -/
theorem verify_cached_counts_witness :
    Store.empty.keys.Nodup ∧
      (HybridVerifier.verify failingTransport Store.empty Source.cached ["a"]).result =
        Except.ok (HybridVerifier.verify_from_cache Store.empty ["a"]) ∧
      (HybridVerifier.verify_from_cache Store.empty ["a"]).verified +
          (HybridVerifier.verify_from_cache Store.empty ["a"]).unknown +
          (HybridVerifier.verify_from_cache Store.empty ["a"]).revoked =
        ((["a"] : List String).map strLower).dedup.length :=
  ⟨by decide, rfl,
    (verify_cached_counts failingTransport Store.empty Source.cached ["a"]
      (HybridVerifier.verify_from_cache Store.empty ["a"]) (by decide) rfl rfl).1⟩

/-- A transport whose 200 body reports `scanned = 5` regardless of the
request (the client copies `data.get("scanned", 0)` without checking). -/
def misreportingTransport : Transport :=
  fun _ => HttpOutcome.response 200 ⟨none, none, some 5, some 0, some 0, some 0, some []⟩

/-- C2 counterexample: a 200 response whose body says `scanned = 5` is
forwarded unchanged, so `verify(["a"]).scanned = 5 ≠ 1 = len(hashes)` on
the remote-success path. -/
theorem scanned_counterexample :
    (HybridVerifier.verify misreportingTransport Store.empty Source.cached ["a"]).result.map
        ScanResponse.scanned = Except.ok 5 ∧
      (["a"] : List String).length = 1 ∧ (5 : Nat) ≠ 1 := by
  exact ⟨by decide, rfl, by decide⟩

/-- C2 (amended): for every non-empty hash list, any `BatchResult` that
`verify` returns has `scanned = len(hashes)` unconditionally on the
cache-fallback path, and on the remote-success path exactly when the
remote response reports `scanned = len(hashes)` (the client forwards the
envelope unchanged). -/
theorem verify_scanned (transport : Transport) (cache : Store) (ls : Source)
    (hashes : List String) (r : ScanResponse) (hne : hashes ≠ [])
    (hremote : ∀ resp, SentinelClient.scan transport hashes = Except.ok resp →
      resp.scanned = hashes.length)
    (hres : (HybridVerifier.verify transport cache ls hashes).result = Except.ok r) :
    r.scanned = hashes.length := by
  unfold HybridVerifier.verify at hres
  have he : ¬ hashes.isEmpty = true := by
    cases hashes with
    | nil => exact absurd rfl hne
    | cons x xs => simp
  rw [if_neg he] at hres
  cases hscan : SentinelClient.scan transport hashes with
  | ok resp =>
    rw [hscan] at hres
    dsimp only [] at hres
    injection hres with h2
    rw [← h2]
    exact hremote resp hscan
  | error e =>
    rw [hscan] at hres
    cases e with
    | requestException =>
      dsimp only [] at hres
      injection hres with h2
      rw [← h2]
      rfl
    | apiError m c =>
      dsimp only [] at hres
      injection hres with h2
      rw [← h2]
      rfl
    | validationError =>
      dsimp only [] at hres
      exact Except.noConfusion hres
    | keyError =>
      dsimp only [] at hres
      exact Except.noConfusion hres

/-- C2 witness: the amended theorem instantiated with the failing remote
and the input `["a"]`. -/
theorem verify_scanned_witness :
    ((["a"] : List String) ≠ []) ∧
      (HybridVerifier.verify failingTransport Store.empty Source.cached ["a"]).result.map
        ScanResponse.scanned = Except.ok 1 := by
  refine ⟨by decide, ?_⟩
  have h := verify_scanned failingTransport Store.empty Source.cached ["a"]
    (HybridVerifier.verify_from_cache Store.empty ["a"]) (by decide)
    (fun resp hresp => Except.noConfusion hresp) rfl
  show Except.ok ((HybridVerifier.verify_from_cache Store.empty ["a"]).scanned) = Except.ok 1
  rw [h]
  rfl

/-- A transport that answers 200 with a well-formed single-result body. -/
def okTransport : Transport :=
  fun _ => HttpOutcome.response 200
    ⟨none, none, some 1, some 1, some 0, some 0, some [⟨some "a", some "verified", none⟩]⟩

/-- C4: whenever the remote `scan` succeeds, `verify` returns that
response unchanged (tagged `source = remote` by `scan`), records
last-used source = remote, and never invokes the cache's `get_batch`. -/
theorem verify_remote_precedence (transport : Transport) (cache : Store) (ls : Source)
    (hashes : List String) (resp : ScanResponse)
    (hscan : SentinelClient.scan transport hashes = Except.ok resp) :
    HybridVerifier.verify transport cache ls hashes =
        ⟨Except.ok resp, Source.remote, [CallEvent.remoteScan]⟩ ∧
      resp.source = Source.remote ∧
      CallEvent.cacheGetBatch ∉ (HybridVerifier.verify transport cache ls hashes).calls := by
  have hv : HybridVerifier.verify transport cache ls hashes =
      ⟨Except.ok resp, Source.remote, [CallEvent.remoteScan]⟩ := by
    unfold HybridVerifier.verify
    rw [if_neg (scan_ok_nonempty transport hashes resp hscan), hscan]
  refine ⟨hv, scan_ok_source transport hashes resp hscan, ?_⟩
  rw [hv]
  simp

/-- C4 witness: remote precedence instantiated at a transport answering
200 with a well-formed body. -/
theorem verify_remote_precedence_witness :
    SentinelClient.scan okTransport ["a"] =
        Except.ok ⟨1, 1, 0, 0, [⟨"a", "verified", none, Source.remote⟩], Source.remote⟩ ∧
      HybridVerifier.verify okTransport Store.empty Source.cached ["a"] =
        ⟨Except.ok ⟨1, 1, 0, 0, [⟨"a", "verified", none, Source.remote⟩], Source.remote⟩,
         Source.remote, [CallEvent.remoteScan]⟩ :=
  ⟨rfl, (verify_remote_precedence okTransport Store.empty Source.cached ["a"] _ rfl).1⟩

/-- C5: `verify([])` fails with the validation error (`ValueError`)
before invoking either the remote client or the cache: the call trace is
empty. -/
theorem verify_empty_input (transport : Transport) (cache : Store) (ls : Source) :
    HybridVerifier.verify transport cache ls [] =
      ⟨Except.error ScanError.validationError, ls, []⟩ :=
  rfl

/-- A transport answering 200 with a results item that lacks the required
`status` field, so `item["status"]` raises `KeyError`. -/
def malformedTransport : Transport :=
  fun _ => HttpOutcome.response 200
    ⟨none, none, some 1, some 0, some 1, some 0, some [⟨some "a", none, none⟩]⟩

/-- C10: a 200 response whose results item lacks the required `status`
field makes `scan` fail with `KeyError` — which is neither the transport
error nor the API error — and `verify` does not catch it: the error
propagates to the caller instead of triggering the cache fallback. -/
theorem malformed_body_propagates :
    SentinelClient.scan malformedTransport ["a"] = Except.error ScanError.keyError ∧
      ScanError.keyError ≠ ScanError.requestException ∧
      (∀ m : String, ∀ c : Option String, ScanError.keyError ≠ ScanError.apiError m c) ∧
      (∀ cache : Store, ∀ ls : Source,
        HybridVerifier.verify malformedTransport cache ls ["a"] =
          ⟨Except.error ScanError.keyError, ls, [CallEvent.remoteScan]⟩) :=
  ⟨rfl, by decide, fun m c h => ScanError.noConfusion h, fun cache ls => rfl⟩
/-- A plugin record used for concrete instantiations. -/
def samplePlugin : CachedPlugin :=
  ⟨"Foo", 100, some "foo.esp", "verified"⟩

/-- A one-row store used for concrete instantiations. -/
def sampleStore : Store :=
  ⟨[("ab", samplePlugin)]⟩

/-- C8: for every hash list and every well-formed cache state, each
requested hash appears (lowercased) as a key of `get_batch`'s result,
mapped to exactly what a point `get` of that hash returns (`none` when
not stored), and the key-value mapping is the same for every chunk size,
in particular for the shipped 500. -/
theorem get_batch_spec (c : Nat) (s : Store) (hashes : List String) (hnd : s.keys.Nodup) :
    (∀ h ∈ hashes, dictLookup (s.get_batch hashes) (strLower h) = some (s.get h)) ∧
      (∀ k, (dictLookup (s.get_batch hashes) k).isSome → ∃ h ∈ hashes, k = strLower h) ∧
      (∀ k, dictLookup (Store.get_batch_chunked c s hashes) k =
        dictLookup (s.get_batch hashes) k) := by
  refine ⟨?_, ?_, ?_⟩
  · intro h hm
    rw [Store.get_batch, get_batch_chunked_lookup 500 s hashes _ hnd,
      if_pos (List.mem_map_of_mem strLower hm)]
    rfl
  · intro k hk
    rw [Store.get_batch, get_batch_chunked_lookup 500 s hashes k hnd] at hk
    by_cases hm : k ∈ hashes.map strLower
    · obtain ⟨h, hh, he⟩ := List.mem_map.mp hm
      exact ⟨h, hh, he.symm⟩
    · rw [if_neg hm] at hk
      simp at hk
  · intro k
    rw [Store.get_batch, get_batch_chunked_lookup c s hashes k hnd,
      get_batch_chunked_lookup 500 s hashes k hnd]

/-- C8 witness: the specification instantiated at a one-row store, the
request `["AB", "cd"]` and chunk size 2. -/
theorem get_batch_spec_witness :
    sampleStore.keys.Nodup ∧
      dictLookup (sampleStore.get_batch ["AB", "cd"]) (strLower "AB") =
        some (sampleStore.get "AB") :=
  ⟨by decide, (get_batch_spec 2 sampleStore ["AB", "cd"] (by decide)).1 "AB" (by decide)⟩

/-- C3: if the remote transport always fails at the network level, then
for every non-empty hash list `verify` returns (no exception escapes) a
response with `source = cached` whose entry for each requested hash is
classified from the cache: absent → `unknown` with no plugin, status
`revoked` → `revoked` with plugin populated, anything else → `verified`
with plugin populated. -/
theorem verify_fallback_classification (transport : Transport) (cache : Store) (ls : Source)
    (hashes : List String) (htrans : ∀ hs, transport hs = HttpOutcome.requestException)
    (hnd : cache.keys.Nodup) (hne : hashes ≠ []) :
    ∃ r, (HybridVerifier.verify transport cache ls hashes).result = Except.ok r ∧
      r.source = Source.cached ∧
      (HybridVerifier.verify transport cache ls hashes).last_source = Source.cached ∧
      ∀ h ∈ hashes, ∃ e ∈ r.results, e.hash = strLower h ∧ e.source = Source.cached ∧
        (match cache.get h with
         | none => e.status = "unknown" ∧ e.plugin = none
         | some cp =>
           if cp.status = "revoked" then
             e.status = "revoked" ∧ e.plugin = some ⟨cp.name, cp.nexus_id, cp.filename, none⟩
           else
             e.status = "verified" ∧ e.plugin = some ⟨cp.name, cp.nexus_id, cp.filename, none⟩) := by
  have he : ¬ hashes.isEmpty = true := by
    cases hashes with
    | nil => exact absurd rfl hne
    | cons x xs => simp
  have hscan : SentinelClient.scan transport hashes = Except.error ScanError.requestException := by
    unfold SentinelClient.scan
    rw [if_neg he, htrans hashes]
  have hv : HybridVerifier.verify transport cache ls hashes =
      ⟨Except.ok (HybridVerifier.verify_from_cache cache hashes), Source.cached,
       [CallEvent.remoteScan, CallEvent.cacheGetBatch]⟩ := by
    unfold HybridVerifier.verify
    rw [if_neg he, hscan]
  refine ⟨HybridVerifier.verify_from_cache cache hashes, by rw [hv], rfl, by rw [hv], ?_⟩
  intro h hm
  have hlk : dictLookup (cache.get_batch hashes) (strLower h) = some (cache.get h) := by
    rw [Store.get_batch, get_batch_chunked_lookup 500 cache hashes _ hnd,
      if_pos (List.mem_map_of_mem strLower hm)]
    rfl
  cases hc : cache.get h with
  | none =>
    rw [hc] at hlk
    have hmem := mem_of_dictLookup_eq_some _ _ _ hlk
    refine ⟨⟨strLower h, "unknown", none, Source.cached⟩, ?_, rfl, rfl, by simp⟩
    show _ ∈ (HybridVerifier.verify_from_cache cache hashes).results
    unfold HybridVerifier.verify_from_cache
    simp only []
    exact List.mem_map.mpr ⟨(strLower h, none), hmem, rfl⟩
  | some cp =>
    rw [hc] at hlk
    have hmem := mem_of_dictLookup_eq_some _ _ _ hlk
    by_cases hs : cp.status = "revoked"
    · refine ⟨⟨strLower h, "revoked", some ⟨cp.name, cp.nexus_id, cp.filename, none⟩,
        Source.cached⟩, ?_, rfl, rfl, by simp [hs]⟩
      show _ ∈ (HybridVerifier.verify_from_cache cache hashes).results
      unfold HybridVerifier.verify_from_cache
      simp only []
      exact List.mem_map.mpr ⟨(strLower h, some cp), hmem, by simp [classifyCached, hs]⟩
    · refine ⟨⟨strLower h, "verified", some ⟨cp.name, cp.nexus_id, cp.filename, none⟩,
        Source.cached⟩, ?_, rfl, rfl, by simp [hs]⟩
      show _ ∈ (HybridVerifier.verify_from_cache cache hashes).results
      unfold HybridVerifier.verify_from_cache
      simp only []
      exact List.mem_map.mpr ⟨(strLower h, some cp), hmem, by simp [classifyCached, hs]⟩

/-- C3 witness: fallback classification instantiated at the failing
remote, a one-row store and the request `["AB"]`. -/
theorem verify_fallback_classification_witness :
    (∀ hs : List String, failingTransport hs = HttpOutcome.requestException) ∧
      sampleStore.keys.Nodup ∧ (["AB"] : List String) ≠ [] ∧
      (∃ r, (HybridVerifier.verify failingTransport sampleStore Source.cached ["AB"]).result =
          Except.ok r ∧
        r.source = Source.cached ∧
        (HybridVerifier.verify failingTransport sampleStore Source.cached ["AB"]).last_source =
          Source.cached ∧
        ∀ h ∈ (["AB"] : List String), ∃ e ∈ r.results, e.hash = strLower h ∧
          e.source = Source.cached ∧
          (match sampleStore.get h with
           | none => e.status = "unknown" ∧ e.plugin = none
           | some cp =>
             if cp.status = "revoked" then
               e.status = "revoked" ∧ e.plugin = some ⟨cp.name, cp.nexus_id, cp.filename, none⟩
             else
               e.status = "verified" ∧
                 e.plugin = some ⟨cp.name, cp.nexus_id, cp.filename, none⟩)) :=
  ⟨fun _ => rfl, by decide, by decide,
    verify_fallback_classification failingTransport sampleStore Source.cached ["AB"]
      (fun _ => rfl) (by decide) (by decide)⟩
theorem get_batch_chunked_congr (c : Nat) (s : Store) (hs1 hs2 : List String)
    (hnorm : hs1.map strLower = hs2.map strLower) :
    Store.get_batch_chunked c s hs1 = Store.get_batch_chunked c s hs2 := by
  unfold Store.get_batch_chunked
  rw [hnorm]

theorem verify_from_cache_congr (cache : Store) (hs1 hs2 : List String)
    (hnorm : hs1.map strLower = hs2.map strLower) :
    HybridVerifier.verify_from_cache cache hs1 = HybridVerifier.verify_from_cache cache hs2 := by
  have hlen : hs1.length = hs2.length := by
    rw [← List.length_map hs1 strLower, hnorm, List.length_map]
  unfold HybridVerifier.verify_from_cache
  rw [Store.get_batch, Store.get_batch, get_batch_chunked_congr 500 cache hs1 hs2 hnorm, hlen]

/-- C6 (amended): on the cache-fallback path, the whole response depends
only on the lowercase normalization of the input list, so case variants of
the same hashes produce identical entries.  (On the remote path the raw,
un-normalized hashes are forwarded to the remote service — see the
counterexample.) -/
theorem verify_fallback_case_insensitive (transport : Transport) (cache : Store) (ls : Source)
    (hs1 hs2 : List String) (htrans : ∀ hs, transport hs = HttpOutcome.requestException)
    (hnorm : hs1.map strLower = hs2.map strLower) :
    HybridVerifier.verify transport cache ls hs1 = HybridVerifier.verify transport cache ls hs2 := by
  cases hq1 : hs1 with
  | nil =>
    have hq2 : hs2 = [] := by
      rw [hq1] at hnorm
      exact List.map_eq_nil_iff.mp hnorm.symm
    rw [hq2]
  | cons x xs =>
    cases hq2 : hs2 with
    | nil =>
      rw [hq1, hq2] at hnorm
      simp at hnorm
    | cons y ys =>
      rw [← hq1, ← hq2]
      have he1 : ¬ hs1.isEmpty = true := by rw [hq1]; simp
      have he2 : ¬ hs2.isEmpty = true := by rw [hq2]; simp
      have hscan1 : SentinelClient.scan transport hs1 = Except.error ScanError.requestException := by
        unfold SentinelClient.scan
        rw [if_neg he1, htrans hs1]
      have hscan2 : SentinelClient.scan transport hs2 = Except.error ScanError.requestException := by
        unfold SentinelClient.scan
        rw [if_neg he2, htrans hs2]
      unfold HybridVerifier.verify
      rw [if_neg he1, if_neg he2, hscan1, hscan2]
      dsimp only []
      rw [verify_from_cache_congr cache hs1 hs2 hnorm]

/-- C6 witness: the amended case-insensitivity theorem instantiated at
the failing remote, a one-row store and the case variants `["AB"]` /
`["aB"]`. -/
theorem verify_fallback_case_insensitive_witness :
    (∀ hs : List String, failingTransport hs = HttpOutcome.requestException) ∧
      (["AB"] : List String).map strLower = (["aB"] : List String).map strLower ∧
      HybridVerifier.verify failingTransport sampleStore Source.cached ["AB"] =
        HybridVerifier.verify failingTransport sampleStore Source.cached ["aB"] :=
  ⟨fun _ => rfl, by decide,
    verify_fallback_case_insensitive failingTransport sampleStore Source.cached ["AB"] ["aB"]
      (fun _ => rfl) (by decide)⟩

/-- A transport that inspects the raw case of the posted hashes: it answers
only the exact list `["a"]` and fails otherwise, as a case-sensitive remote
may. `scan` posts the hashes un-normalized, so `verify(["A"])` and
`verify(["a"])` reach different answering paths. -/
def caseSensitiveTransport : Transport :=
  fun hs =>
    if hs = ["a"] then
      HttpOutcome.response 200
        ⟨none, none, some 1, some 1, some 0, some 0, some [⟨some "a", some "verified", none⟩]⟩
    else HttpOutcome.requestException

/-- C6 counterexample: `scan` posts the hashes un-normalized, so against
a case-sensitive remote, `verify(["a"])` (answered remotely) and
`verify(["A"])` (falls back to the cache) produce different entries for
the same hash. -/
theorem case_normalization_counterexample :
    strLower "A" = strLower "a" ∧
      (HybridVerifier.verify caseSensitiveTransport Store.empty Source.cached ["a"]).result.map
          ScanResponse.results = Except.ok [⟨"a", "verified", none, Source.remote⟩] ∧
      (HybridVerifier.verify caseSensitiveTransport Store.empty Source.cached ["A"]).result.map
          ScanResponse.results = Except.ok [⟨"a", "unknown", none, Source.cached⟩] ∧
      ([⟨"a", "verified", none, Source.remote⟩] : List ScanResult) ≠
        [⟨"a", "unknown", none, Source.cached⟩] :=
  ⟨rfl, by decide, by decide, by decide⟩
theorem keys_upsert_mem (s : Store) (k : String) (v : CachedPlugin) (x : String) :
    x ∈ (s.upsert k v).keys ↔ x = k ∨ x ∈ s.keys := by
  simp only [Store.upsert, Store.keys, List.map_append, List.mem_append, List.map_cons,
    List.map_nil, List.mem_singleton, List.mem_map, List.mem_filter]
  constructor
  · rintro (⟨r, ⟨hr, hp⟩, hx⟩ | hx)
    · exact Or.inr ⟨r, hr, hx⟩
    · exact Or.inl hx
  · rintro (hx | ⟨r, hr, hx⟩)
    · exact Or.inr hx
    · by_cases hrk : r.1 = k
      · exact Or.inr (hx ▸ hrk)
      · exact Or.inl ⟨r, ⟨hr, by simpa using hrk⟩, hx⟩

theorem keys_upsert_nodup (s : Store) (k : String) (v : CachedPlugin)
    (h : s.keys.Nodup) : (s.upsert k v).keys.Nodup := by
  simp only [Store.upsert, Store.keys, List.map_append, List.map_cons, List.map_nil]
  rw [List.nodup_append]
  refine ⟨?_, List.nodup_singleton k, ?_⟩
  · exact h.sublist (List.Sublist.map Prod.fst (List.filter_sublist s.rows))
  · intro x hx
    obtain ⟨r, hr, hrx⟩ := List.mem_map.mp hx
    have := (List.mem_filter.mp hr).2
    simp only [List.mem_singleton]
    intro hxk
    rw [hxk] at hrx
    exact absurd hrx (by simpa using this)

theorem lookupRow_upsert (s : Store) (k : String) (v : CachedPlugin) :
    (s.upsert k v).lookupRow k = some v := by
  unfold Store.lookupRow Store.upsert
  rw [List.find?_append]
  have hnone : (s.rows.filter (fun r => r.1 ≠ k)).find? (fun r => r.1 = k) = none := by
    rw [List.find?_eq_none]
    intro r hr
    have := (List.mem_filter.mp hr).2
    simpa using this
  rw [hnone]
  simp [List.find?]
/-- The normalized key that a file entry contributes to the store, if any
(`None` for a missing or empty `sha256`). -/
def fileKey (e : FileEntry) : Option String :=
  match e.sha256 with
  | some h => if h = "" then none else some (strLower h)
  | none => none

theorem foldl_upsertFile_nodup (p : GoldenPlugin) (l : List FileEntry) (acc : Store × Nat)
    (h : acc.1.keys.Nodup) : ((l.foldl (upsertFile p) acc).1).keys.Nodup := by
  induction l generalizing acc with
  | nil => simpa
  | cons e rest ih =>
    simp only [List.foldl_cons]
    refine ih _ ?_
    unfold upsertFile
    cases he : e.sha256 with
    | none => simpa
    | some hs =>
      by_cases hb : hs = ""
      · simpa [hb]
      · simpa [hb] using keys_upsert_nodup acc.1 (strLower hs) _ h

theorem foldl_upsertFile_keys (p : GoldenPlugin) (l : List FileEntry) (acc : Store × Nat)
    (k : String) :
    k ∈ ((l.foldl (upsertFile p) acc).1).keys ↔
      k ∈ acc.1.keys ∨ k ∈ l.filterMap fileKey := by
  induction l generalizing acc with
  | nil => simp
  | cons e rest ih =>
    simp only [List.foldl_cons]
    rw [ih]
    cases he : e.sha256 with
    | none =>
      have h1 : upsertFile p acc e = acc := by simp [upsertFile, he]
      have h2 : fileKey e = none := by simp [fileKey, he]
      rw [h1, List.filterMap_cons, h2]
    | some hs =>
      by_cases hb : hs = ""
      · have h1 : upsertFile p acc e = acc := by simp [upsertFile, he, hb]
        have h2 : fileKey e = none := by simp [fileKey, he, hb]
        rw [h1, List.filterMap_cons, h2]
      · have h1 : upsertFile p acc e =
            (acc.1.upsert (strLower hs) ⟨p.name, p.nexusId, e.filename,
              e.status.getD "verified"⟩, acc.2 + 1) := by
          simp [upsertFile, he, hb]
        have h2 : fileKey e = some (strLower hs) := by simp [fileKey, he, hb]
        rw [h1, List.filterMap_cons, h2]
        simp only [List.mem_cons]
        rw [keys_upsert_mem]
        tauto

theorem load_nodup (s : Store) (ds : GoldenSet) (h : s.keys.Nodup) :
    ((s.load_from_golden_set ds).1).keys.Nodup := by
  unfold Store.load_from_golden_set
  suffices hgen : ∀ (ps : List GoldenPlugin) (acc : Store × Nat), acc.1.keys.Nodup →
      ((ps.foldl (fun a p => p.files.foldl (upsertFile p) a) acc).1).keys.Nodup by
    exact hgen ds.plugins (s, 0) h
  intro ps
  induction ps with
  | nil => intro acc hacc; simpa
  | cons p rest ih =>
    intro acc hacc
    simp only [List.foldl_cons]
    exact ih _ (foldl_upsertFile_nodup p p.files acc hacc)

theorem load_keys_mem (s : Store) (ds : GoldenSet) (k : String) :
    k ∈ ((s.load_from_golden_set ds).1).keys ↔
      k ∈ s.keys ∨ ∃ p ∈ ds.plugins, k ∈ p.files.filterMap fileKey := by
  unfold Store.load_from_golden_set
  suffices hgen : ∀ (ps : List GoldenPlugin) (acc : Store × Nat),
      (k ∈ ((ps.foldl (fun a p => p.files.foldl (upsertFile p) a) acc).1).keys ↔
        k ∈ acc.1.keys ∨ ∃ p ∈ ps, k ∈ p.files.filterMap fileKey) by
    exact hgen ds.plugins (s, 0)
  intro ps
  induction ps with
  | nil => intro acc; simp
  | cons p rest ih =>
    intro acc
    simp only [List.foldl_cons]
    rw [ih, foldl_upsertFile_keys]
    simp only [List.mem_cons]
    constructor
    · rintro ((h1 | h1) | ⟨q, hq, hk⟩)
      · exact Or.inl h1
      · exact Or.inr ⟨p, Or.inl rfl, h1⟩
      · exact Or.inr ⟨q, Or.inr hq, hk⟩
    · rintro (h1 | ⟨q, (hq | hq), hk⟩)
      · exact Or.inl (Or.inl h1)
      · exact Or.inl (Or.inr (hq ▸ hk))
      · exact Or.inr ⟨q, hq, hk⟩

/-- C7: loading the golden set twice in succession from any well-formed
store is idempotent for `count()`: the second load only re-upserts keys
the first load already inserted, so the row count is unchanged and the
keys stay duplicate-free. -/
theorem sync_cache_idempotent (s : Store) (ds : GoldenSet) (hnd : s.keys.Nodup) :
    ((s.load_from_golden_set ds).1.load_from_golden_set ds).1.count =
        (s.load_from_golden_set ds).1.count ∧
      ((s.load_from_golden_set ds).1.load_from_golden_set ds).1.keys.Nodup := by
  have h1 : (s.load_from_golden_set ds).1.keys.Nodup := load_nodup s ds hnd
  have h2 : ((s.load_from_golden_set ds).1.load_from_golden_set ds).1.keys.Nodup :=
    load_nodup _ ds h1
  refine ⟨?_, h2⟩
  have hset : ((s.load_from_golden_set ds).1.load_from_golden_set ds).1.keys.toFinset =
      (s.load_from_golden_set ds).1.keys.toFinset := by
    ext k
    simp only [List.mem_toFinset]
    rw [load_keys_mem, load_keys_mem s ds]
    tauto
  have hc1 : ((s.load_from_golden_set ds).1.load_from_golden_set ds).1.count =
      ((s.load_from_golden_set ds).1.load_from_golden_set ds).1.keys.length :=
    (List.length_map _ _).symm
  have hc2 : (s.load_from_golden_set ds).1.count =
      (s.load_from_golden_set ds).1.keys.length :=
    (List.length_map _ _).symm
  rw [hc1, hc2, ← List.toFinset_card_of_nodup h2, ← List.toFinset_card_of_nodup h1, hset]

/-- A two-plugin dataset (with one duplicated hash) for concrete checks. -/
def sampleDataset : GoldenSet :=
  ⟨[⟨"Foo", 100, [⟨some "foo.esp", some "AB", some "verified"⟩,
      ⟨some "foo2.esp", some "ab", none⟩, ⟨some "bad.esp", none, none⟩]⟩,
    ⟨"Bar", 200, [⟨some "bar.esp", some "cd", some "revoked"⟩]⟩]⟩

/-- C7 witness: idempotence instantiated at the empty store and a
two-plugin dataset containing a duplicated hash. -/
theorem sync_cache_idempotent_witness :
    Store.empty.keys.Nodup ∧
      ((Store.empty.load_from_golden_set sampleDataset).1.load_from_golden_set
          sampleDataset).1.count =
        (Store.empty.load_from_golden_set sampleDataset).1.count :=
  ⟨by decide, (sync_cache_idempotent Store.empty sampleDataset (by decide)).1⟩

/-- C9: the store never contains two records for the same normalized
hash — the key-uniqueness invariant holds for the fresh store and is
preserved by upsert, by a golden-set load and by clear — and when the
same hash is upserted again the latest record wins. -/
theorem store_invariant (s : Store) (ds : GoldenSet) (k : String) (v : CachedPlugin)
    (hnd : s.keys.Nodup) :
    Store.empty.keys.Nodup ∧
      (s.upsert k v).keys.Nodup ∧
      (s.upsert k v).lookupRow k = some v ∧
      ((s.load_from_golden_set ds).1).keys.Nodup ∧
      (s.clear).keys.Nodup :=
  ⟨List.nodup_nil, keys_upsert_nodup s k v hnd, lookupRow_upsert s k v,
    load_nodup s ds hnd, List.nodup_nil⟩

/-- C9 witness: the invariant instantiated at a one-row store with a
second upsert on the same key. -/
theorem store_invariant_witness :
    sampleStore.keys.Nodup ∧
      (sampleStore.upsert "ab" ⟨"Foo2", 101, none, "revoked"⟩).keys.Nodup ∧
      (sampleStore.upsert "ab" ⟨"Foo2", 101, none, "revoked"⟩).lookupRow "ab" =
        some ⟨"Foo2", 101, none, "revoked"⟩ :=
  ⟨by decide,
    (store_invariant sampleStore sampleDataset "ab" ⟨"Foo2", 101, none, "revoked"⟩
      (by decide)).2.1,
    (store_invariant sampleStore sampleDataset "ab" ⟨"Foo2", 101, none, "revoked"⟩
      (by decide)).2.2.1⟩

end SkyrimSentinel
